import Mathlib

/-!
Verification of the MadBoost LP calculator (`madboost_lp_calculator.py`).

The Python module consists of pure functions over a fixed rank ladder:
`rank_index`, `calculate_lp_between_ranks`, `calculate_price_progression`,
and a two-path (reference/client) pricing composition in the UI layer.
Python floats are modelled by `ℚ`; Python's `list.index` and dictionary
subscripting, which raise on a missing element, are modelled by `Option`.
-/

/-- Model of Python `list.index`: index of the first occurrence of `x` in
`xs`, `none` when absent (Python raises `ValueError`). -/
def pyIndex (xs : List String) (x : String) : Option Nat :=
  match xs with
  | [] => none
  | y :: ys => if y = x then some 0 else (pyIndex ys x).map (· + 1)

/-- Model of Python `int()` applied to a rational: truncation toward zero. -/
def pyInt (q : ℚ) : ℤ :=
  if q < 0 then -⌊-q⌋ else ⌊q⌋

/-- Model of Python `round()` to an integer: round half to even. -/
def pyRound (q : ℚ) : ℤ :=
  if q - ⌊q⌋ < 1/2 then ⌊q⌋
  else if 1/2 < q - ⌊q⌋ then ⌊q⌋ + 1
  else if ⌊q⌋ % 2 = 0 then ⌊q⌋ else ⌊q⌋ + 1

/-- Model of Python `round(q, dp)`: round to `dp` decimal places. -/
def roundTo (q : ℚ) (dp : Nat) : ℚ :=
  (pyRound (q * 10 ^ dp) : ℚ) / 10 ^ dp

/-- The `RANKS` list from the source (7 ranks, ascending). -/
def RANKS : List String :=
  ["Iron", "Bronze", "Silver", "Gold", "Platinum", "Emerald", "Diamond"]

/-- The `DIVISIONS` list from the source (4 divisions, ascending IV → I). -/
def DIVISIONS : List String := ["IV", "III", "II", "I"]

/-- The constant `LP_PER_DIVISION = 100` from the source. -/
def LP_PER_DIVISION : ℚ := 100

/-- The function `rank_index(rank, div)` from the source:
`RANKS.index(rank) * len(DIVISIONS) + DIVISIONS.index(div)`,
`none` when either name is absent from its list. -/
def rank_index (rank div : String) : Option Nat :=
  (pyIndex RANKS rank).bind fun r =>
    (pyIndex DIVISIONS div).map fun d => r * DIVISIONS.length + d

/-- The function `calculate_lp_between_ranks` from the source. Returns
`(int(total_lp), divs, ranks)`; the early-return branch yields `(0, 0, 0)`.
The intermediate-division loop `for i in range(curr_idx+1, target_idx)`
contributes `100` per iteration, i.e. `target_idx - (curr_idx+1)` times. -/
def calculate_lp_between_ranks (current_rank current_div : String)
    (current_lp : ℚ) (target_rank target_div : String) (target_lp : ℚ) :
    Option (ℤ × ℕ × ℕ) :=
  (rank_index current_rank current_div).bind fun curr_idx =>
    (rank_index target_rank target_div).bind fun target_idx =>
      if target_idx < curr_idx ∨ (target_idx = curr_idx ∧ target_lp ≤ current_lp) then
        some (0, 0, 0)
      else
        let total_lp : ℚ :=
          if curr_idx = target_idx then
            target_lp - current_lp
          else
            (LP_PER_DIVISION - current_lp)
              + (target_idx - (curr_idx + 1) : ℕ) * LP_PER_DIVISION
              + target_lp
        let divs : ℕ := ((target_idx : ℤ) - curr_idx).natAbs
        (pyIndex RANKS target_rank).bind fun tr =>
          (pyIndex RANKS current_rank).map fun cr =>
            (pyInt total_lp, divs, ((tr : ℤ) - cr).natAbs)

/-- A sampled progression row, as appended by the source:
`{"LP Step": step, "Step Price ($)": round(step_price, 4),
  "Cumulative ($)": round(total_price, 2)}`. -/
structure ProgressionRow where
  lpStep : ℕ
  stepPriceUSD : ℚ
  cumulativeUSD : ℚ
deriving DecidableEq

/-- One iteration of the loop body of `calculate_price_progression`:
compound the step price, accumulate the total, and record a row every
10th step or at the final step. -/
def priceStep (growth : ℚ) (total_lp : ℕ)
    (acc : ℚ × ℚ × List ProgressionRow) (step : ℕ) :
    ℚ × ℚ × List ProgressionRow :=
  let step_price := acc.1 * (1 + growth)
  let total_price := acc.2.1 + step_price
  let progression :=
    if step % 10 = 0 ∨ step = total_lp then
      acc.2.2 ++ [⟨step, roundTo step_price 4, roundTo total_price 2⟩]
    else acc.2.2
  (step_price, total_price, progression)

/-- The function `calculate_price_progression(base_price, total_lp, lp_key, multipliers)`
from the source: `none` models the `KeyError` on an unknown `lp_key`;
otherwise it runs the loop over steps `1..total_lp` and returns
`(round(total_price, 2), progression, step_price)`. -/
def calculate_price_progression (base_price : ℚ) (total_lp : ℕ)
    (lp_key : String) (multipliers : List (String × ℚ)) :
    Option (ℚ × List ProgressionRow × ℚ) :=
  (multipliers.lookup lp_key).map fun m =>
    let growth := m / 100
    let res := (List.range' 1 total_lp).foldl (priceStep growth total_lp)
      (base_price, 0, [])
    (roundTo res.2.1 2, res.2.2, res.1)

/-- Spec-side closed form: the unrounded step price after `m` steps. -/
def stepPriceAt (base growth : ℚ) (m : ℕ) : ℚ :=
  base * (1 + growth) ^ m

/-- Spec-side closed form: the unrounded running total after `m` steps. -/
def cumulPrice (base growth : ℚ) : ℕ → ℚ
  | 0 => 0
  | m + 1 => cumulPrice base growth m + base * (1 + growth) ^ (m + 1)

/-- The row recorded at step `s`: the step price rounded to 4 decimal
places and the running total rounded to 2 decimal places. -/
def rowOf (base growth : ℚ) (s : ℕ) : ProgressionRow :=
  ⟨s, roundTo (stepPriceAt base growth s) 4, roundTo (cumulPrice base growth s) 2⟩

/-- Spec-side description of the sampled rows of a `total_lp`-step run:
one row per step that is a multiple of 10 or equal to the final step. -/
def sampledRows (base growth : ℚ) (total_lp : ℕ) : List ProgressionRow :=
  ((List.range' 1 total_lp).filter
      (fun s => decide (s % 10 = 0 ∨ s = total_lp))).map (rowOf base growth)

/-- Modelled from the spec: the Next-Step Pricer (spec §4.4) is absent from
the repository's source file; the spec defines it as
`basePrice × (1 + growthRate/100)^(currentLP + 1)`. -/
def nextStepPrice (base_price : ℚ) (current_lp : ℕ)
    (growth_rate_percent : ℚ) : ℚ :=
  base_price * (1 + growth_rate_percent / 100) ^ (current_lp + 1)

/-- Model of Python `str.lower()` (ASCII inputs): lower-case every
character. -/
def pyLower (s : String) : String := ⟨s.data.map Char.toLower⟩

/-- The two-path pricing composition from the UI layer (source lines
162–181): compute the client gap, bail out (`none`, the warning branch)
when it is not positive, run the reference path from Iron IV / 0 LP to the
current position at the fixed rate, then run the client path from the
reference path's final step price. -/
def two_path (current_rank current_div : String) (current_lp : ℚ)
    (target_rank target_div : String) (target_lp : ℚ)
    (base_price m_fixed : ℚ) (lp_gain : String)
    (client_multipliers : List (String × ℚ)) :
    Option ((ℤ × ℕ × ℕ) × (ℚ × List ProgressionRow × ℚ)
            × (ℚ × List ProgressionRow × ℚ)) :=
  (calculate_lp_between_ranks current_rank current_div current_lp
      target_rank target_div target_lp).bind fun gap =>
    if gap.1 ≤ 0 then none
    else
      (calculate_lp_between_ranks "Iron" "IV" 0
          current_rank current_div current_lp).bind fun refGap =>
        (calculate_price_progression base_price refGap.1.toNat "fixed"
            [("fixed", m_fixed)]).bind fun refRes =>
          (calculate_price_progression refRes.2.2 gap.1.toNat
              (pyLower lp_gain) client_multipliers).map fun clientRes =>
            (gap, refRes, clientRes)

-- ---------------------------------------------------------------------
-- Helper lemmas
-- ---------------------------------------------------------------------

theorem pyIndex_lt_length {xs : List String} {x : String} {i : ℕ}
    (h : pyIndex xs x = some i) : i < xs.length := by
  induction xs generalizing i with
  | nil => simp [pyIndex] at h
  | cons y ys ih =>
    simp only [pyIndex] at h
    split at h
    · injection h with h0
      simp only [List.length_cons]
      omega
    · cases hy : pyIndex ys x with
      | none => rw [hy] at h; simp at h
      | some j =>
        rw [hy] at h
        simp only [Option.map_some', Option.some.injEq] at h
        have := ih hy
        simp only [List.length_cons]
        omega

theorem pyIndex_eq_none {xs : List String} {x : String}
    (h : x ∉ xs) : pyIndex xs x = none := by
  induction xs with
  | nil => rfl
  | cons y ys ih =>
    simp only [List.mem_cons, not_or] at h
    have hne : ¬ y = x := fun hyx => h.1 hyx.symm
    simp [pyIndex, hne, ih h.2]

theorem pyInt_intCast (z : ℤ) : pyInt (z : ℚ) = z := by
  unfold pyInt
  split
  · rw [← Int.cast_neg, Int.floor_intCast]; ring
  · exact Int.floor_intCast z

/-- The loop of `calculate_price_progression`, run for `m` of the `n`
scheduled steps, is the closed-form state: compounded step price,
accumulated geometric total, and the rows sampled so far. -/
theorem progression_foldl_eq (base g : ℚ) (n : ℕ) (m : ℕ) :
    (List.range' 1 m).foldl (priceStep g n) (base, 0, []) =
      (stepPriceAt base g m, cumulPrice base g m,
        ((List.range' 1 m).filter (fun s => decide (s % 10 = 0 ∨ s = n))).map
          (rowOf base g)) := by
  induction m with
  | zero => simp [stepPriceAt, cumulPrice]
  | succ m ih =>
    rw [List.range'_1_concat, List.foldl_append, ih, List.filter_append,
      List.map_append]
    have hstep : stepPriceAt base g m * (1 + g) = stepPriceAt base g (m + 1) := by
      unfold stepPriceAt; ring
    have hcumul : cumulPrice base g m + stepPriceAt base g m * (1 + g) =
        cumulPrice base g (m + 1) := by
      show _ = cumulPrice base g m + base * (1 + g) ^ (m + 1)
      unfold stepPriceAt; ring
    have h1m : 1 + m = m + 1 := Nat.add_comm 1 m
    simp only [List.foldl_cons, List.foldl_nil, priceStep, h1m]
    rw [hcumul, hstep]
    by_cases hc : (m + 1) % 10 = 0 ∨ m + 1 = n
    · simp [hc, rowOf]
    · simp [hc]

/-- Running `calculate_lp_between_ranks` on a forward-valid request: the early
return is not taken and the result is the truncated arithmetic gap
together with the division and rank spans. -/
theorem calculate_lp_forward (cr cd tr td : String) (clp tlp : ℚ)
    (ci ti cri tri : ℕ)
    (hci : rank_index cr cd = some ci) (hti : rank_index tr td = some ti)
    (hcr : pyIndex RANKS cr = some cri) (htr : pyIndex RANKS tr = some tri)
    (hfwd : ci < ti ∨ (ci = ti ∧ clp < tlp)) :
    calculate_lp_between_ranks cr cd clp tr td tlp =
      some (pyInt (if ci = ti then tlp - clp
                   else (100 - clp) + ((ti - (ci + 1) : ℕ) : ℚ) * 100 + tlp),
            ((ti : ℤ) - ci).natAbs, ((tri : ℤ) - cri).natAbs) := by
  have hneg : ¬(ti < ci ∨ (ti = ci ∧ tlp ≤ clp)) := by
    rcases hfwd with h | ⟨he, hlt⟩
    · rintro (h' | ⟨h', _⟩) <;> omega
    · rintro (h' | ⟨_, h'⟩)
      · omega
      · exact absurd hlt (not_lt.mpr h')
  simp only [calculate_lp_between_ranks, hci, hti, hcr, htr, Option.some_bind,
    Option.map_some', if_neg hneg, LP_PER_DIVISION]
  simp

/-- Running `calculate_lp_between_ranks` on a non-forward request: the early
return yields the `(0, 0, 0)` sentinel. -/
theorem calculate_lp_invalid (cr cd tr td : String) (clp tlp : ℚ)
    (ci ti : ℕ)
    (hci : rank_index cr cd = some ci) (hti : rank_index tr td = some ti)
    (hinv : ti < ci ∨ (ti = ci ∧ tlp ≤ clp)) :
    calculate_lp_between_ranks cr cd clp tr td tlp = some (0, 0, 0) := by
  simp only [calculate_lp_between_ranks, hci, hti, Option.some_bind,
    if_pos hinv]

/-- The function `calculate_price_progression` in closed form, when the tier key is
present in the multiplier mapping. -/
theorem calculate_price_progression_eq (base g : ℚ) (n : ℕ) (key : String)
    (mult : List (String × ℚ)) (h : mult.lookup key = some g) :
    calculate_price_progression base n key mult =
      some (roundTo (cumulPrice base (g / 100) n) 2,
        sampledRows base (g / 100) n, stepPriceAt base (g / 100) n) := by
  simp only [calculate_price_progression, h, Option.map_some']
  rw [progression_foldl_eq base (g / 100) n n]
  rfl

/-- Integer-LP instance of `calculate_lp_forward`: with whole-number LP
values the `int()` truncation is the identity, so the returned total is
the exact arithmetic gap. -/
theorem calculate_lp_forward_int (cr cd tr td : String) (clp tlp : ℕ)
    (ci ti cri tri : ℕ)
    (hci : rank_index cr cd = some ci) (hti : rank_index tr td = some ti)
    (hcr : pyIndex RANKS cr = some cri) (htr : pyIndex RANKS tr = some tri)
    (hfwd : ci < ti ∨ (ci = ti ∧ clp < tlp)) :
    calculate_lp_between_ranks cr cd (clp : ℚ) tr td (tlp : ℚ) =
      some ((if ci = ti then (tlp : ℤ) - clp
             else (100 - clp) + 100 * ((ti : ℤ) - ci - 1) + tlp),
            ((ti : ℤ) - ci).natAbs, ((tri : ℤ) - cri).natAbs) := by
  have hfwdQ : ci < ti ∨ (ci = ti ∧ (clp : ℚ) < tlp) := by
    rcases hfwd with h | ⟨he, hlt⟩
    · exact Or.inl h
    · exact Or.inr ⟨he, by exact_mod_cast hlt⟩
  rw [calculate_lp_forward cr cd tr td (clp : ℚ) (tlp : ℚ) ci ti cri tri
    hci hti hcr htr hfwdQ]
  by_cases hq : ci = ti
  · simp only [if_pos hq]
    rw [show ((tlp : ℚ) - clp) = (((tlp : ℤ) - clp : ℤ) : ℚ) from by
      push_cast; ring, pyInt_intCast]
  · have hlt : ci < ti := by
      rcases hfwd with h | ⟨he, _⟩
      · exact h
      · exact absurd he hq
    have hle : ci + 1 ≤ ti := hlt
    have hcast : ((100 : ℚ) - clp) + ((ti - (ci + 1) : ℕ) : ℚ) * 100 + tlp =
        ((((100 : ℤ) - clp) + 100 * ((ti : ℤ) - ci - 1) + tlp : ℤ) : ℚ) := by
      push_cast [Nat.cast_sub hle]
      ring
    simp only [if_neg hq]
    rw [hcast, pyInt_intCast]

-- ---------------------------------------------------------------------
-- Claims
-- ---------------------------------------------------------------------

/-- C1: for every valid current and target (rank, division, LP) with the
target strictly ahead, the LP gap returned by `calculate_lp_between_ranks`
equals `(100 - currentLP) + 100 × (whole divisions strictly between) +
targetLP` when the positions differ, and `targetLP - currentLP` when they
coincide; in particular `gap(Iron, IV, 90, Iron, III, 10)` returns a total
LP of 20. -/
theorem lp_gap_formula (cr cd tr td : String) (clp tlp : ℕ)
    (ci ti cri tri : ℕ)
    (hci : rank_index cr cd = some ci) (hti : rank_index tr td = some ti)
    (hcr : pyIndex RANKS cr = some cri) (htr : pyIndex RANKS tr = some tri)
    (hfwd : ci < ti ∨ (ci = ti ∧ clp < tlp)) :
    calculate_lp_between_ranks cr cd (clp : ℚ) tr td (tlp : ℚ) =
      some ((if ci = ti then (tlp : ℤ) - clp
             else (100 - clp) + 100 * ((ti : ℤ) - ci - 1) + tlp),
            ((ti : ℤ) - ci).natAbs, ((tri : ℤ) - cri).natAbs)
    ∧ calculate_lp_between_ranks "Iron" "IV" 90 "Iron" "III" 10 =
        some (20, 1, 0) := by
  constructor
  · exact calculate_lp_forward_int cr cd tr td clp tlp ci ti cri tri
      hci hti hcr htr hfwd
  · norm_num [calculate_lp_between_ranks, rank_index, pyInt, LP_PER_DIVISION,
      show pyIndex RANKS "Iron" = some 0 from by decide,
      show pyIndex DIVISIONS "IV" = some 0 from by decide,
      show pyIndex DIVISIONS "III" = some 1 from by decide,
      show DIVISIONS.length = 4 from rfl]

/-- C1 witness: the formula instantiated at the forward-valid request
`gap(Iron, IV, 90, Iron, III, 10)`. -/
theorem lp_gap_formula_witness :
    (rank_index "Iron" "IV" = some 0 ∧ rank_index "Iron" "III" = some 1
      ∧ (0 < 1 ∨ (0 = 1 ∧ 90 < 10)))
    ∧ calculate_lp_between_ranks "Iron" "IV" 90 "Iron" "III" 10 =
        some (20, 1, 0) :=
  ⟨⟨by decide, by decide, by decide⟩,
    (lp_gap_formula "Iron" "IV" "Iron" "III" 90 10 0 1 0 0
      (by decide) (by decide) (by decide) (by decide) (Or.inl (by decide))).2⟩

/-- C7: for every valid rank and division, the Rank Locator returns
`rank_ordinal × 4 + division_ordinal` (4 = number of divisions), a
position below 28 (7 ranks × 4 divisions), and positions are strictly
monotone in rank and, within one rank, in division. -/
theorem rank_index_position_monotone (r1 d1 r2 d2 : String)
    (i1 j1 i2 j2 : ℕ)
    (h1 : pyIndex RANKS r1 = some i1) (hd1 : pyIndex DIVISIONS d1 = some j1)
    (h2 : pyIndex RANKS r2 = some i2) (hd2 : pyIndex DIVISIONS d2 = some j2) :
    rank_index r1 d1 = some (i1 * 4 + j1)
    ∧ i1 * 4 + j1 < 28
    ∧ (i1 < i2 → i1 * 4 + j1 < i2 * 4 + j2)
    ∧ (i1 = i2 → j1 < j2 → i1 * 4 + j1 < i2 * 4 + j2) := by
  have hi1 : i1 < 7 := by
    have := pyIndex_lt_length h1
    simpa [RANKS] using this
  have hj1 : j1 < 4 := by
    have := pyIndex_lt_length hd1
    simpa [DIVISIONS] using this
  have hj2 : j2 < 4 := by
    have := pyIndex_lt_length hd2
    simpa [DIVISIONS] using this
  refine ⟨?_, by omega, by omega, by omega⟩
  simp only [rank_index, h1, hd1, Option.some_bind, Option.map_some']
  rfl

/-- C7 witness: the locator's formula and monotonicity at
(Iron, IV) and (Bronze, I). -/
theorem rank_index_position_monotone_witness :
    (pyIndex RANKS "Iron" = some 0 ∧ pyIndex DIVISIONS "IV" = some 0
      ∧ pyIndex RANKS "Bronze" = some 1 ∧ pyIndex DIVISIONS "I" = some 3)
    ∧ (rank_index "Iron" "IV" = some (0 * 4 + 0)
        ∧ 0 * 4 + 0 < 28
        ∧ (0 < 1 → 0 * 4 + 0 < 1 * 4 + 3)
        ∧ (0 = 1 → 0 < 3 → 0 * 4 + 0 < 1 * 4 + 3)) :=
  ⟨⟨by decide, by decide, by decide, by decide⟩,
    rank_index_position_monotone "Iron" "IV" "Bronze" "I" 0 0 1 3
      (by decide) (by decide) (by decide) (by decide)⟩

/-- C4: with valid whole-number LP values, `calculate_lp_between_ranks`
returns the `(0, 0, 0)` sentinel exactly when the target is not strictly
ahead; when the target is strictly ahead the returned total is strictly
positive, and swapping current and target yields the sentinel. -/
theorem invalid_sentinel_iff (cr cd tr td : String) (clp tlp : ℕ)
    (ci ti cri tri : ℕ)
    (hci : rank_index cr cd = some ci) (hti : rank_index tr td = some ti)
    (hcr : pyIndex RANKS cr = some cri) (htr : pyIndex RANKS tr = some tri)
    (hclp : clp < 100) (htlp : tlp < 100) :
    (calculate_lp_between_ranks cr cd (clp : ℚ) tr td (tlp : ℚ) = some (0, 0, 0)
      ↔ ti < ci ∨ (ti = ci ∧ tlp ≤ clp))
    ∧ (ci < ti ∨ (ci = ti ∧ clp < tlp) →
        ∃ t d r, calculate_lp_between_ranks cr cd (clp : ℚ) tr td (tlp : ℚ)
          = some (t, d, r) ∧ 0 < t)
    ∧ (ci < ti ∨ (ci = ti ∧ clp < tlp) →
        calculate_lp_between_ranks tr td (tlp : ℚ) cr cd (clp : ℚ)
          = some (0, 0, 0)) := by
  refine ⟨⟨?_, ?_⟩, ?_, ?_⟩
  · intro hres
    by_contra hinv
    have hfwd : ci < ti ∨ (ci = ti ∧ clp < tlp) := by omega
    rw [calculate_lp_forward_int cr cd tr td clp tlp ci ti cri tri
      hci hti hcr htr hfwd] at hres
    simp only [Option.some.injEq, Prod.mk.injEq] at hres
    obtain ⟨ht, hd, -⟩ := hres
    rw [Int.natAbs_eq_zero] at hd
    by_cases hq : ci = ti
    · rw [if_pos hq] at ht
      omega
    · rw [if_neg hq] at ht
      omega
  · intro hinv
    apply calculate_lp_invalid cr cd tr td (clp : ℚ) (tlp : ℚ) ci ti hci hti
    rcases hinv with h | ⟨he, hle⟩
    · exact Or.inl h
    · exact Or.inr ⟨he, by exact_mod_cast hle⟩
  · intro hfwd
    rw [calculate_lp_forward_int cr cd tr td clp tlp ci ti cri tri
      hci hti hcr htr hfwd]
    refine ⟨_, _, _, rfl, ?_⟩
    by_cases hq : ci = ti
    · rw [if_pos hq]
      rcases hfwd with h | ⟨-, hlt⟩
      · omega
      · omega
    · rw [if_neg hq]
      have hlt : ci < ti := by
        rcases hfwd with h | ⟨he, -⟩
        · exact h
        · exact absurd he hq
      omega
  · intro hfwd
    apply calculate_lp_invalid tr td cr cd (tlp : ℚ) (clp : ℚ) ti ci hti hci
    rcases hfwd with h | ⟨he, hlt⟩
    · exact Or.inl h
    · exact Or.inr ⟨he, by exact_mod_cast hlt.le⟩

/-- C4 witness: the sentinel characterization at the forward-valid pair
Iron IV 90 → Iron III 10. -/
theorem invalid_sentinel_iff_witness :
    ((90 : ℕ) < 100 ∧ (10 : ℕ) < 100)
    ∧ ((calculate_lp_between_ranks "Iron" "IV" ((90 : ℕ) : ℚ) "Iron" "III"
          ((10 : ℕ) : ℚ) = some (0, 0, 0) ↔ 1 < 0 ∨ (1 = 0 ∧ 10 ≤ 90))
      ∧ (0 < 1 ∨ (0 = 1 ∧ 90 < 10) →
          ∃ t d r, calculate_lp_between_ranks "Iron" "IV" ((90 : ℕ) : ℚ)
            "Iron" "III" ((10 : ℕ) : ℚ) = some (t, d, r) ∧ 0 < t)
      ∧ (0 < 1 ∨ (0 = 1 ∧ 90 < 10) →
          calculate_lp_between_ranks "Iron" "III" ((10 : ℕ) : ℚ)
            "Iron" "IV" ((90 : ℕ) : ℚ) = some (0, 0, 0))) :=
  ⟨⟨by decide, by decide⟩,
    invalid_sentinel_iff "Iron" "IV" "Iron" "III" 90 10 0 1 0 0
      (by decide) (by decide) (by decide) (by decide)
      (by decide) (by decide)⟩

/-- C5 counterexample: at the forward-valid fractional request
Iron IV 0.5 LP → Iron IV 1.0 LP the code returns a total of 0 (and hence
the sentinel), while the exact real-valued gap is 0.5 ≠ 0: the `int()`
on the return line truncates fractional LP totals. -/
theorem fractional_lp_exact_cex :
    calculate_lp_between_ranks "Iron" "IV" (1/2) "Iron" "IV" 1
      = some (0, 0, 0)
    ∧ ((1 : ℚ) - 1/2 ≠ 0) := by
  constructor
  · norm_num [calculate_lp_between_ranks, rank_index, pyInt, LP_PER_DIVISION,
      show pyIndex RANKS "Iron" = some 0 from by decide,
      show pyIndex DIVISIONS "IV" = some 0 from by decide,
      show DIVISIONS.length = 4 from rfl]
  · norm_num

/-- C5 amended: for every forward-valid input with arbitrary (possibly
fractional) rational LP values, the returned LP total is the
truncation toward zero (Python `int()`) of the exact real-valued gap of
the stated arithmetic, the fractional part being discarded. -/
theorem fractional_lp_truncated_gap (cr cd tr td : String) (clp tlp : ℚ)
    (ci ti cri tri : ℕ)
    (hci : rank_index cr cd = some ci) (hti : rank_index tr td = some ti)
    (hcr : pyIndex RANKS cr = some cri) (htr : pyIndex RANKS tr = some tri)
    (hfwd : ci < ti ∨ (ci = ti ∧ clp < tlp)) :
    calculate_lp_between_ranks cr cd clp tr td tlp =
      some (pyInt (if ci = ti then tlp - clp
                   else (100 - clp) + 100 * ((ti : ℚ) - ci - 1) + tlp),
            ((ti : ℤ) - ci).natAbs, ((tri : ℤ) - cri).natAbs) := by
  rw [calculate_lp_forward cr cd tr td clp tlp ci ti cri tri
    hci hti hcr htr hfwd]
  by_cases hq : ci = ti
  · simp [hq]
  · have hlt : ci < ti := by
      rcases hfwd with h | ⟨he, _⟩
      · exact h
      · exact absurd he hq
    have hle : ci + 1 ≤ ti := hlt
    have hcast : ((ti - (ci + 1) : ℕ) : ℚ) * 100 = 100 * ((ti : ℚ) - ci - 1) := by
      push_cast [Nat.cast_sub hle]
      ring
    simp only [if_neg hq, hcast]

/-- C5 amended witness: Iron IV 0.5 LP → Iron IV 1.5 LP returns the
truncation of the exact gap 1.0. -/
theorem fractional_lp_truncated_gap_witness :
    (rank_index "Iron" "IV" = some 0
      ∧ (0 < 0 ∨ (0 = 0 ∧ (1/2 : ℚ) < 3/2)))
    ∧ calculate_lp_between_ranks "Iron" "IV" (1/2) "Iron" "IV" (3/2) =
        some (pyInt (if 0 = 0 then (3/2 : ℚ) - 1/2
                     else (100 - 1/2) + 100 * ((0 : ℚ) - 0 - 1) + 3/2),
              ((0 : ℤ) - 0).natAbs, ((0 : ℤ) - 0).natAbs) :=
  ⟨⟨by decide, Or.inr ⟨rfl, by norm_num⟩⟩,
    fractional_lp_truncated_gap "Iron" "IV" "Iron" "IV" (1/2) (3/2) 0 0 0 0
      (by decide) (by decide) (by decide) (by decide)
      (Or.inr ⟨rfl, by norm_num⟩)⟩

/-- C2: `calculate_price_progression` compounds the step price by
`(1 + g/100)` on each of the `totalLP` steps, adding the updated step
price to the running total; `progress(1, 2, 10%)` yields step prices 1.10
and 1.21 and total price 2.31, and `totalLP = 0` yields total 0, final
step price equal to the base price, and no sampled rows. -/
theorem price_progression_spec (base g : ℚ) (n : ℕ) (key : String)
    (mult : List (String × ℚ)) (h : mult.lookup key = some g) :
    calculate_price_progression base n key mult =
      some (roundTo (cumulPrice base (g / 100) n) 2,
        sampledRows base (g / 100) n, stepPriceAt base (g / 100) n)
    ∧ stepPriceAt 1 (10 / 100) 1 = 11/10
    ∧ stepPriceAt 1 (10 / 100) 2 = 121/100
    ∧ calculate_price_progression 1 2 "mid" [("mid", 10)] =
        some (231/100, [⟨2, 121/100, 231/100⟩], 121/100)
    ∧ calculate_price_progression base 0 key mult = some (0, [], base) := by
  refine ⟨calculate_price_progression_eq base g n key mult h, ?_, ?_, ?_, ?_⟩
  · norm_num [stepPriceAt]
  · norm_num [stepPriceAt]
  · norm_num [calculate_price_progression, List.lookup, priceStep, roundTo,
      pyRound, List.range']
  · rw [calculate_price_progression_eq base g 0 key mult h]
    norm_num [cumulPrice, sampledRows, stepPriceAt, roundTo, pyRound,
      List.range']

/-- C2 witness: the characterization instantiated at
`progress(1, 2, "mid" ↦ 10%)`. -/
theorem price_progression_spec_witness :
    List.lookup "mid" [("mid", (10 : ℚ))] = some 10
    ∧ (calculate_price_progression 1 2 "mid" [("mid", 10)] =
        some (roundTo (cumulPrice 1 (10 / 100) 2) 2,
          sampledRows 1 (10 / 100) 2, stepPriceAt 1 (10 / 100) 2)
      ∧ stepPriceAt 1 (10 / 100) 1 = 11/10
      ∧ stepPriceAt 1 (10 / 100) 2 = 121/100
      ∧ calculate_price_progression 1 2 "mid" [("mid", 10)] =
          some (231/100, [⟨2, 121/100, 231/100⟩], 121/100)
      ∧ calculate_price_progression 1 0 "mid" [("mid", 10)] =
          some (0, [], 1)) :=
  ⟨rfl, price_progression_spec 1 10 2 "mid" [("mid", 10)] rfl⟩

/-- C6: after `n ≥ 1` steps the returned final step price is
`base × (1 + g/100)^n`, and the spec's Next-Step Pricer closed form
`nextStepPrice(base, n, g)` equals the final step price of a
`(n+1)`-step run. -/
theorem final_step_closed_form (base g : ℚ) (n : ℕ) (key : String)
    (mult : List (String × ℚ)) (h : mult.lookup key = some g)
    (hn : 1 ≤ n) :
    (∃ t rows, calculate_price_progression base n key mult =
        some (t, rows, base * (1 + g / 100) ^ n))
    ∧ (∃ t rows, calculate_price_progression base (n + 1) key mult =
        some (t, rows, nextStepPrice base n g)) := by
  constructor
  · exact ⟨roundTo (cumulPrice base (g / 100) n) 2,
      sampledRows base (g / 100) n, by
        rw [calculate_price_progression_eq base g n key mult h]; rfl⟩
  · exact ⟨roundTo (cumulPrice base (g / 100) (n + 1)) 2,
      sampledRows base (g / 100) (n + 1), by
        rw [calculate_price_progression_eq base g (n + 1) key mult h]; rfl⟩

/-- C6 witness: the closed forms at `base = 1`, `g = 10`, `n = 1`. -/
theorem final_step_closed_form_witness :
    (List.lookup "mid" [("mid", (10 : ℚ))] = some 10 ∧ 1 ≤ 1)
    ∧ ((∃ t rows, calculate_price_progression 1 1 "mid" [("mid", 10)] =
          some (t, rows, 1 * (1 + 10 / 100) ^ 1))
      ∧ (∃ t rows, calculate_price_progression 1 (1 + 1) "mid" [("mid", 10)] =
          some (t, rows, nextStepPrice 1 1 10))) :=
  ⟨⟨rfl, le_refl 1⟩,
    final_step_closed_form 1 10 1 "mid" [("mid", 10)] rfl (le_refl 1)⟩

/-- For `n ≥ 1` the sampled rows end with the final step's row. -/
theorem sampledRows_concat (base g : ℚ) (n : ℕ) (hn : 1 ≤ n) :
    ∃ l, sampledRows base g n = l ++ [rowOf base g n] := by
  obtain ⟨m, rfl⟩ : ∃ m, n = m + 1 := ⟨n - 1, by omega⟩
  refine ⟨((List.range' 1 m).filter
    (fun s => decide (s % 10 = 0 ∨ s = m + 1))).map (rowOf base g), ?_⟩
  unfold sampledRows
  rw [List.range'_1_concat, List.filter_append, List.map_append]
  congr 1
  simp [show 1 + m = m + 1 from by omega]

/-- C8: for `n ≥ 1`, the sampled progression is exactly the rows for the
steps that are multiples of 10 together with the final step `n`, each row
carrying the step index, the step price rounded to 4 decimal places and
the cumulative price rounded to 2 decimal places. -/
theorem sampled_rows_exact (base g : ℚ) (n : ℕ) (key : String)
    (mult : List (String × ℚ)) (h : mult.lookup key = some g)
    (hn : 1 ≤ n) :
    ∃ t fs, calculate_price_progression base n key mult =
      some (t,
        ((List.range' 1 n).filter
            (fun s => decide (s % 10 = 0 ∨ s = n))).map
          (fun s => ⟨s, roundTo (base * (1 + g / 100) ^ s) 4,
                     roundTo (cumulPrice base (g / 100) s) 2⟩),
        fs) := by
  exact ⟨roundTo (cumulPrice base (g / 100) n) 2,
    stepPriceAt base (g / 100) n, by
      rw [calculate_price_progression_eq base g n key mult h]; rfl⟩

/-- C8 witness: the sampled-row description at `n = 1`. -/
theorem sampled_rows_exact_witness :
    (List.lookup "mid" [("mid", (10 : ℚ))] = some 10 ∧ 1 ≤ 1)
    ∧ (∃ t fs, calculate_price_progression 1 1 "mid" [("mid", 10)] =
        some (t,
          ((List.range' 1 1).filter
              (fun s => decide (s % 10 = 0 ∨ s = 1))).map
            (fun s => ⟨s, roundTo (1 * (1 + 10 / 100) ^ s) 4,
                       roundTo (cumulPrice 1 (10 / 100) s) 2⟩),
          fs)) :=
  ⟨⟨rfl, le_refl 1⟩,
    sampled_rows_exact 1 10 1 "mid" [("mid", 10)] rfl (le_refl 1)⟩

/-- C10: for `n ≥ 1` the returned progression list is non-empty and its
last row carries step index `n`, the returned unrounded final step price
rounded to 4 decimal places, and the returned (2-decimal-rounded) total
price; for `n = 0` the returned list is empty. -/
theorem last_row_final_step (base g : ℚ) (n : ℕ) (key : String)
    (mult : List (String × ℚ)) (h : mult.lookup key = some g)
    (hn : 1 ≤ n) :
    (∃ t rows fs, calculate_price_progression base n key mult =
        some (t, rows, fs)
      ∧ rows ≠ []
      ∧ rows.getLast? = some ⟨n, roundTo fs 4, t⟩)
    ∧ (∃ t0 fs0, calculate_price_progression base 0 key mult =
        some (t0, [], fs0)) := by
  constructor
  · obtain ⟨l, hl⟩ := sampledRows_concat base (g / 100) n hn
    refine ⟨roundTo (cumulPrice base (g / 100) n) 2,
      sampledRows base (g / 100) n, stepPriceAt base (g / 100) n,
      calculate_price_progression_eq base g n key mult h, ?_, ?_⟩
    · rw [hl]
      simp
    · rw [hl, List.getLast?_concat]
      rfl
  · exact ⟨roundTo (cumulPrice base (g / 100) 0) 2,
      stepPriceAt base (g / 100) 0, by
        rw [calculate_price_progression_eq base g 0 key mult h]; rfl⟩

/-- C10 witness: the last-row property at `n = 1`. -/
theorem last_row_final_step_witness :
    (List.lookup "mid" [("mid", (10 : ℚ))] = some 10 ∧ 1 ≤ 1)
    ∧ ((∃ t rows fs, calculate_price_progression 1 1 "mid" [("mid", 10)] =
          some (t, rows, fs)
        ∧ rows ≠ []
        ∧ rows.getLast? = some ⟨1, roundTo fs 4, t⟩)
      ∧ (∃ t0 fs0, calculate_price_progression 1 0 "mid" [("mid", 10)] =
          some (t0, [], fs0))) :=
  ⟨⟨rfl, le_refl 1⟩,
    last_row_final_step 1 10 1 "mid" [("mid", 10)] rfl (le_refl 1)⟩

/-- C9: an unknown growth-tier key makes `calculate_price_progression`
fail (return `none`, the model of the `KeyError`) before any output, and
an unknown rank or division name makes `rank_index` fail; no default
rate or position is substituted. -/
theorem unknown_key_fail_fast (base : ℚ) (n : ℕ) (key : String)
    (mult : List (String × ℚ)) (r d : String)
    (hkey : mult.lookup key = none) (hr : r ∉ RANKS) (hd : d ∉ DIVISIONS) :
    calculate_price_progression base n key mult = none
    ∧ rank_index r d = none
    ∧ rank_index "Iron" d = none := by
  refine ⟨?_, ?_, ?_⟩
  · unfold calculate_price_progression
    rw [hkey]
    rfl
  · unfold rank_index
    rw [pyIndex_eq_none hr]
    rfl
  · unfold rank_index
    rw [show pyIndex RANKS "Iron" = some 0 from by decide, Option.some_bind,
      pyIndex_eq_none hd]
    rfl

/-- C9 witness: the empty mapping rejects the key "fixed", and the
names "Wood" and "V" are rejected by the Rank Locator. -/
theorem unknown_key_fail_fast_witness :
    (List.lookup "fixed" ([] : List (String × ℚ)) = none
      ∧ "Wood" ∉ RANKS ∧ "V" ∉ DIVISIONS)
    ∧ (calculate_price_progression 1 1 "fixed" [] = none
      ∧ rank_index "Wood" "V" = none
      ∧ rank_index "Iron" "V" = none) :=
  ⟨⟨rfl, by decide, by decide⟩,
    unknown_key_fail_fast 1 1 "fixed" [] "Wood" "V" rfl
      (by decide) (by decide)⟩

/-- C3: whenever the two-path computation succeeds, the reference run's
final step price is the base price of the client run, and the client
result is exactly what a single `calculate_price_progression` call on
that base price, the client gap and the client tier would produce. -/
theorem two_path_chaining (cr cd : String) (clp : ℚ) (tr td : String)
    (tlp : ℚ) (base m_fixed : ℚ) (lp_gain : String)
    (cm : List (String × ℚ))
    (gap : ℤ × ℕ × ℕ) (refRes clientRes : ℚ × List ProgressionRow × ℚ)
    (h : two_path cr cd clp tr td tlp base m_fixed lp_gain cm =
      some (gap, refRes, clientRes)) :
    (∃ refGap, calculate_lp_between_ranks "Iron" "IV" 0 cr cd clp =
        some refGap
      ∧ calculate_price_progression base refGap.1.toNat "fixed"
          [("fixed", m_fixed)] = some refRes)
    ∧ calculate_price_progression refRes.2.2 gap.1.toNat (pyLower lp_gain)
        cm = some clientRes := by
  unfold two_path at h
  cases hg : calculate_lp_between_ranks cr cd clp tr td tlp with
  | none => rw [hg] at h; simp at h
  | some g0 =>
    rw [hg, Option.some_bind] at h
    by_cases hpos : g0.1 ≤ 0
    · rw [if_pos hpos] at h
      simp at h
    · rw [if_neg hpos] at h
      cases hrg : calculate_lp_between_ranks "Iron" "IV" 0 cr cd clp with
      | none => rw [hrg] at h; simp at h
      | some rg =>
        rw [hrg, Option.some_bind] at h
        cases hrr : calculate_price_progression base rg.1.toNat "fixed"
            [("fixed", m_fixed)] with
        | none => rw [hrr] at h; simp at h
        | some rr =>
          rw [hrr, Option.some_bind] at h
          cases hcc : calculate_price_progression rr.2.2 g0.1.toNat
              (pyLower lp_gain) cm with
          | none => rw [hcc] at h; simp at h
          | some cc =>
            rw [hcc, Option.map_some'] at h
            obtain ⟨h1, h2, h3⟩ : g0 = gap ∧ rr = refRes ∧ cc = clientRes := by
              simpa using h
            subst h1
            subst h2
            subst h3
            exact ⟨⟨rg, rfl, hrr⟩, hcc⟩

/-- C3 witness: the chaining contract at the concrete scenario
Iron IV 0 LP → Iron IV 2 LP with base 1, fixed rate 1%, client tier
"low" ↦ 5%. -/
theorem two_path_chaining_witness :
    two_path "Iron" "IV" 0 "Iron" "IV" 2 1 1 "low" [("low", 5)] =
      some ((2, 0, 0), (0, [], 1),
        (43/20, [⟨2, 441/400, 43/20⟩], 441/400))
    ∧ ((∃ refGap, calculate_lp_between_ranks "Iron" "IV" 0 "Iron" "IV" 0 =
          some refGap
        ∧ calculate_price_progression 1 refGap.1.toNat "fixed"
            [("fixed", 1)] = some ((0 : ℚ), ([] : List ProgressionRow), (1 : ℚ)))
      ∧ calculate_price_progression ((0 : ℚ), ([] : List ProgressionRow),
          (1 : ℚ)).2.2 ((2 : ℤ), (0 : ℕ), (0 : ℕ)).1.toNat (pyLower "low")
          [("low", 5)] = some (43/20, [⟨2, 441/400, 43/20⟩], 441/400)) := by
  have h : two_path "Iron" "IV" 0 "Iron" "IV" 2 1 1 "low" [("low", 5)] =
      some ((2, 0, 0), (0, [], 1),
        (43/20, [⟨2, 441/400, 43/20⟩], 441/400)) := by
    norm_num [two_path, calculate_lp_between_ranks, rank_index, pyInt,
      LP_PER_DIVISION, calculate_price_progression, List.lookup, priceStep,
      roundTo, pyRound, List.range',
      show pyIndex RANKS "Iron" = some 0 from by decide,
      show pyIndex DIVISIONS "IV" = some 0 from by decide,
      show DIVISIONS.length = 4 from rfl,
      show pyLower "low" = "low" from by decide,
      show Int.fract ((861 : ℚ)/4) = 1/4 from by unfold Int.fract; norm_num,
      show Int.toNat 2 = 2 from rfl]
  exact ⟨h, two_path_chaining "Iron" "IV" 0 "Iron" "IV" 2 1 1 "low"
    [("low", 5)] (2, 0, 0) (0, [], 1)
    (43/20, [⟨2, 441/400, 43/20⟩], 441/400) h⟩
